import Mathlib

/-!
Verification development for the pytreeprint repository.

The repository renders a filesystem directory as an ASCII tree.  The installed
package (per `setup.py`, `package_dir={"": "src"}`) is `src/pytreeprint` of the
repo, which appears here as `src/src/pytreeprint`; we model that variant in the
namespace `Pytreeprint`.  The older stand-alone variant `pytreemap/tree.py`
(textually identical helper functions, but a per-level size accumulation in
`generate_tree`) is modelled in the namespace `Pytreemap`.

Filesystem snapshots are modelled by the inductive type `FSEntry` (plain files
with a byte size, and directories with a child list).  Symbolic links and
modification times are not modelled: no claim mentions them, `is_symlink` is
only consulted for colour selection, and date display only appends an extra
bracketed token per line.  The `show_date` flag is therefore omitted from
`NodeConfig`; all other flags and the full colour machinery are kept.

Regular expressions (Python `re`) are modelled by the AST `Rx` covering the
constructs the program uses: literal characters, `.`, concatenation,
alternation `|`, `*`/`+`, the anchors `^` and `$`, and non-capturing groups
`(?:...)`.  Matching is defined by Brzozowski-style derivatives extended with
position flags so that the anchors behave as in Python without `re.MULTILINE`:
`^` matches only at position 0, and `$` matches at the end of the input or
just before a single trailing newline.  `reMatch` models the truthiness of
`compiled.match(name)`: some prefix of the input starting at position 0
matches.  Backreferences and capture-group numbering are outside the model;
the repository's patterns (and the spec's contract) use none of them.
-/

/-- Python string comparison (used through `sorted`'s key comparisons):
lexicographic comparison of code points, `true` when the first list is ≤. -/
def pyCharsLe : List Char → List Char → Bool
  | [], _ => true
  | _ :: _, [] => false
  | a :: as, b :: bs =>
    if a.toNat < b.toNat then true
    else if b.toNat < a.toNat then false
    else pyCharsLe as bs

/-- The key `lambda x: x.name.lower()`: per-character lowering of a string
(`Char.toLower` agrees with Python `str.lower` on ASCII names). -/
def lowerChars (s : String) : List Char :=
  s.data.map Char.toLower

/-- Insert an element into a list, before the first element it is `le`-below:
the insertion step of a stable insertion sort. -/
def insertSorted {α : Type} (le : α → α → Bool) (a : α) : List α → List α
  | [] => [a]
  | b :: bs => if le a b then a :: b :: bs else b :: insertSorted le a bs

/-- Stable sort by `le`.  Python's `sorted` is a stable sort, and the result
of any stable sort with respect to a total preorder is unique, so this models
`sorted(items, key=...)` exactly. -/
def stableSort {α : Type} (le : α → α → Bool) : List α → List α
  | [] => []
  | a :: as => insertSorted le a (stableSort le as)

/-- Regular-expression ASTs for the fragment of Python `re` the program uses.
`void` (matching nothing) is engine infrastructure needed to define
derivatives; it corresponds to no source pattern. -/
inductive Rx : Type where
  | void : Rx
  | eps : Rx
  | ch : Char → Rx
  | anyc : Rx
  | bol : Rx
  | eol : Rx
  | grp : Rx → Rx
  | seq : Rx → Rx → Rx
  | alt : Rx → Rx → Rx
  | star : Rx → Rx
deriving DecidableEq

/-- Python `p+` is one-or-more. -/
def Rx.plus1 (r : Rx) : Rx := .seq r (.star r)

/-- A sequence of literal characters. -/
def Rx.lit (cs : List Char) : Rx :=
  cs.foldr (fun c r => .seq (.ch c) r) .eps

/-- The pattern `^s$` used by all but one of the default ignore patterns. -/
def Rx.anchoredLit (s : String) : Rx :=
  .seq .bol (.seq (.lit s.data) .eol)

/-- Does `$` (without MULTILINE) hold at a position whose remaining input is
`s`: at the end, or just before a single trailing newline. -/
def eolHere : List Char → Bool
  | [] => true
  | [c] => c = '\n'
  | _ :: _ :: _ => false

/-- Can `r` match the empty string at a position described by the flags:
`st` = the position is the start of the input, `en` = `$` holds here. -/
def Rx.nullable : Rx → Bool → Bool → Bool
  | .void, _, _ => false
  | .eps, _, _ => true
  | .ch _, _, _ => false
  | .anyc, _, _ => false
  | .bol, st, _ => st
  | .eol, _, en => en
  | .grp r, st, en => r.nullable st en
  | .seq a b, st, en => a.nullable st en && b.nullable st en
  | .alt a b, st, en => a.nullable st en || b.nullable st en
  | .star _, _, _ => true

/-- Brzozowski derivative of `r` by the character `c`, where the flags
describe the position just before `c` (needed because `^`/`$` are
position-dependent zero-width assertions). -/
def Rx.deriv : Rx → Char → Bool → Bool → Rx
  | .void, _, _, _ => .void
  | .eps, _, _, _ => .void
  | .ch a, c, _, _ => if a = c then .eps else .void
  | .anyc, c, _, _ => if c = '\n' then .void else .eps
  | .bol, _, _, _ => .void
  | .eol, _, _, _ => .void
  | .grp r, c, st, en => r.deriv c st en
  | .seq a b, c, st, en =>
    .alt (.seq (a.deriv c st en) b) (if a.nullable st en then b.deriv c st en else .void)
  | .alt a b, c, st, en => .alt (a.deriv c st en) (b.deriv c st en)
  | .star a, c, st, en => .seq (a.deriv c st en) (.star a)

/-- Does `r` match some prefix of `s` (possibly empty)?  `st` records whether
the current position is the start of the whole input. -/
def Rx.matchP (r : Rx) (st : Bool) : List Char → Bool
  | [] => r.nullable st true
  | c :: rest =>
    r.nullable st (eolHere (c :: rest)) || (r.deriv c st (eolHere (c :: rest))).matchP false rest

/-- Truthiness of Python `compiled.match(name)`: `re.match` anchors the search
at position 0 and succeeds when some prefix of `name` matches. -/
def reMatch (r : Rx) (s : String) : Bool :=
  r.matchP true s.data

/-- Does `r` match beginning at character position `i` of `s`?  (`re.match`
only ever tests position 0; this is the spec-side notion used to express that
exclusion is start-anchored rather than a substring search.) -/
def matchesAt (r : Rx) (s : String) (i : Nat) : Bool :=
  r.matchP (i == 0) (s.data.drop i)

/-- Model of `tree.py`, `DEFAULT_IGNORE_PATTERNS`: the 19 default exclusion patterns.
The Python value is a `set`; iteration order is arbitrary, so we fix the
textual order of the source.  All are `^name$` anchored literals except the
final `^\..+_cache$`. -/
def DEFAULT_IGNORE_PATTERNS : List Rx :=
  [ Rx.anchoredLit (".git"), Rx.anchoredLit (".pytest_cache"),
    Rx.anchoredLit (".mypy_cache"), Rx.anchoredLit ("__pycache__"),
    Rx.anchoredLit ("node_modules"), Rx.anchoredLit (".vscode"),
    Rx.anchoredLit (".idea"), Rx.anchoredLit (".vs"),
    Rx.anchoredLit (".venv"), Rx.anchoredLit ("venv"),
    Rx.anchoredLit ("env"), Rx.anchoredLit (".env"),
    Rx.anchoredLit (".tox"), Rx.anchoredLit (".coverage"),
    Rx.anchoredLit (".sass-cache"), Rx.anchoredLit (".next"),
    Rx.anchoredLit ("dist"), Rx.anchoredLit ("build"),
    Rx.seq .bol (.seq (.ch '.') (.seq (Rx.plus1 .anyc) (.seq (Rx.lit ("_cache").data) .eol))) ]

/-- Model of `'|'.join(f'(?:{p})' for p in patterns)`: left fold of `|` over the
group-wrapped patterns. -/
def joinAlt : Rx → List Rx → Rx
  | p, [] => p
  | p, q :: qs => joinAlt (.alt p q) qs

/-- Model of `tree.py`, `compile_ignore_pattern`: `None` for an empty pattern set,
otherwise the alternation of all patterns, each wrapped in a non-capturing
group. -/
def compile_ignore_pattern (patterns : List Rx) : Option Rx :=
  match patterns with
  | [] => none
  | p :: ps => some (joinAlt (.grp p) (ps.map .grp))

/-- The test the traversal applies to an entry's bare name:
`bool(compiled.match(name))`, and no exclusion when there is no matcher. -/
def matcher_test (patterns : List Rx) (name : String) : Bool :=
  match compile_ignore_pattern patterns with
  | none => false
  | some r => reMatch r name

/-- The compiled default matcher. -/
def defaultCompiled : Option Rx :=
  compile_ignore_pattern DEFAULT_IGNORE_PATTERNS

/-- A filesystem snapshot entry: a plain file with its byte size, or a
directory with the snapshot of its children (the result of `iterdir`, in
filesystem order). -/
inductive FSEntry : Type where
  | file : String → Nat → FSEntry
  | dir : String → List FSEntry → FSEntry

/-- Model of `path.name`. -/
def FSEntry.name : FSEntry → String
  | .file n _ => n
  | .dir n _ => n

/-- Model of `path.is_file()`. -/
def FSEntry.is_file : FSEntry → Bool
  | .file _ _ => true
  | .dir _ _ => false

/-- Model of `path.is_dir()`. -/
def FSEntry.is_dir : FSEntry → Bool
  | .file _ _ => false
  | .dir _ _ => true

/-- Model of `list(path.iterdir())` for a directory (empty for a file; the traversal
only recurses into directories). -/
def FSEntry.childrenOf : FSEntry → List FSEntry
  | .file _ _ => []
  | .dir _ cs => cs

/-- Model of `path.stat().st_size` for a plain file. -/
def FSEntry.byte_size : FSEntry → Nat
  | .file _ n => n
  | .dir _ _ => 0

mutual

/-- Number of entries in a subtree (termination/fuel measure). -/
def FSEntry.sz : FSEntry → Nat
  | .file _ _ => 1
  | .dir _ cs => 1 + szL cs

/-- Number of entries in a forest. -/
def szL : List FSEntry → Nat
  | [] => 0
  | e :: es => e.sz + szL es

end

/-- The comparison induced by `sorted(..., key=lambda x: x.name.lower())`. -/
def entryLe (a b : FSEntry) : Bool :=
  pyCharsLe (lowerChars a.name) (lowerChars b.name)

/-- Model of `types.py`, `TreeStats`: the mutable statistics accumulator. -/
structure TreeStats : Type where
  directories : Nat := 0
  files : Nat := 0
  total_size : Nat := 0
deriving DecidableEq, Repr

/-- Model of `types.py`, `NodeConfig` (without the unmodelled `show_date`). -/
structure NodeConfig : Type where
  show_size : Bool := false
  use_color : Bool := false
deriving DecidableEq, Repr

/-- Model of `tree.py`, `COLORS`: ANSI codes, with `dict.get`'s default `''` for
unknown keys. -/
def COLORS (key : String) : String :=
  if key = "reset" then ("\x1b[0m")
  else if key = "blue" then ("\x1b[94m")
  else if key = "green" then ("\x1b[92m")
  else if key = "yellow" then ("\x1b[93m")
  else if key = "cyan" then ("\x1b[96m")
  else if key = "magenta" then ("\x1b[95m")
  else if key = "red" then ("\x1b[91m")
  else ("")

/-- Model of `tree.py`, `FILE_COLORS`: extension-to-colour lookup, `''` when absent. -/
def FILE_COLORS (suffix : String) : String :=
  if suffix ∈ [".exe", ".sh", ".bat", ".cmd", ".ps1", ".py"] then ("green")
  else if suffix ∈ [".mp3", ".wav", ".flac", ".m4a", ".ogg", ".mp4", ".avi",
                    ".mkv", ".mov", ".jpg", ".jpeg", ".png", ".gif", ".bmp"] then ("cyan")
  else if suffix ∈ [".zip", ".rar", ".7z", ".tar", ".gz"] then ("magenta")
  else if suffix ∈ [".json", ".xml", ".yaml", ".yml", ".ini", ".conf"] then ("red")
  else ("")

/-- Index (from the front) of the last `'.'` in a name, if any. -/
def lastDotIdx (cs : List Char) : Option Nat :=
  match cs with
  | [] => none
  | c :: rest =>
    match lastDotIdx rest with
    | some i => some (i + 1)
    | none => if c = '.' then some 0 else none

/-- Model of `PurePath.suffix.lower()`: the part of the name from its last dot on,
provided that dot is neither the first nor the last character. -/
def pySuffixLower (name : String) : String :=
  let cs := name.data
  match lastDotIdx cs with
  | none => ""
  | some i =>
    if 0 < i ∧ i < cs.length - 1 then String.mk ((cs.drop i).map Char.toLower) else ("")

/-- Model of `tree.py`, `get_color_for_file` (symlinks do not occur in the model, so
the `is_symlink` branch is dead). -/
def get_color_for_file (e : FSEntry) (use_color : Bool) : String × String :=
  if !use_color then ("", "")
  else if e.is_dir then (COLORS ("blue"), COLORS ("reset"))
  else (COLORS (FILE_COLORS (pySuffixLower e.name)), COLORS ("reset"))

/-- Python `f"{x:.1f}"` for the nonnegative exact value `num / den`
(`den > 0`): round to one decimal place, ties to even — the rounding Python
applies when formatting a float.  The program only formats an integer byte
count divided by powers of 1024; below 2^53 a Python float holds that value
exactly, so exact rational arithmetic (carried here as a numerator and a
denominator) models the source's float arithmetic faithfully. -/
def pyFormat1 (num den : Nat) : String :=
  let t := num * 10
  let fl := t / den
  let n :=
    if t % den * 2 < den then fl
    else if den < t % den * 2 then fl + 1
    else if fl % 2 = 0 then fl else fl + 1
  toString (n / 10) ++ "." ++ toString (n % 10)

/-- The `for unit in [...]` loop of `get_size_str`: divide by 1024 until the
value drops below 1024 or the unit list is exhausted.  The running value
`size / 1024^k` is carried exactly as the pair `(size, den)` with
`den = 1024^k`. -/
def sizeLoop : Nat → Nat → List String → String
  | size, den, [] => pyFormat1 size den ++ "PB"
  | size, den, u :: us =>
    if size < 1024 * den then pyFormat1 size den ++ u
    else sizeLoop size (den * 1024) us

/-- Model of `tree.py`, `get_size_str`: human-readable size with binary units. -/
def get_size_str (size : Nat) : String :=
  sizeLoop size 1 [("B"), ("KB"), ("MB"), ("GB"), ("TB")]

/-- Model of `tree.py`, `get_file_info` restricted to the modelled flags: a bracketed
human-readable size for plain files when size display is on (the omitted
`show_date` would append one more bracketed token). -/
def get_file_info (e : FSEntry) (show_size : Bool) : String :=
  if show_size && e.is_file then ("[") ++ get_size_str e.byte_size ++ "]" else ("")

/-- Model of `tree.py` (src variant), `process_tree_node`: render one entry line. -/
def process_tree_node (item : FSEntry) (pfx : String) (config : NodeConfig)
    (is_last_item : Bool) : String :=
  let connector := if is_last_item then ("└───") else ("├───")
  let colors := get_color_for_file item config.use_color
  let info := get_file_info item config.show_size
  let info := if info = "" then ("") else (" ") ++ info
  pfx ++ connector ++ colors.1 ++ item.name ++ colors.2 ++ info

namespace Pytreeprint

/-- The filtered, sorted file bucket of one directory listing
(`utils.py`, `process_directory_items`, files part). -/
def processedFiles (items : List FSEntry) (exclude_pattern : Option Rx) : List FSEntry :=
  let files := stableSort entryLe (items.filter (fun f => f.is_file))
  match exclude_pattern with
  | some p => files.filter (fun f => !(reMatch p f.name))
  | none => files

/-- The filtered, sorted directory bucket of one directory listing
(`utils.py`, `process_directory_items`, dirs part). -/
def processedDirs (items : List FSEntry) (exclude_pattern : Option Rx) : List FSEntry :=
  let dirs := stableSort entryLe (items.filter (fun d => d.is_dir))
  match exclude_pattern with
  | some p => dirs.filter (fun d => !(reMatch p d.name))
  | none => dirs

/-- Model of `utils.py`, `process_directory_items`: partition a listing into files and
directories, sort each case-insensitively, drop entries whose bare name the
exclusion matcher accepts, and add the surviving counts to the stats. -/
def process_directory_items (items : List FSEntry) (stats : TreeStats)
    (exclude_pattern : Option Rx) : (List FSEntry × List FSEntry) × TreeStats :=
  let files := processedFiles items exclude_pattern
  let dirs := processedDirs items exclude_pattern
  ((files, dirs),
   { stats with
       directories := stats.directories + dirs.length,
       files := stats.files + files.length })

/-- Model of `max_depth is not None and current_depth >= max_depth`. -/
def depthReached : Option Nat → Nat → Bool
  | none, _ => false
  | some m, d => m ≤ d

/-- The prefix extension for recursion: spaces under a last sibling, a
continuation guide otherwise. -/
def contGuide (is_last : Bool) : String :=
  if is_last then ("    ") else ("│   ")

/-- The `for index, item in enumerate(files)` loop of `generate_tree`: one
line per file; a file gets the last-sibling connector only when it is the
last file and the directory bucket is empty. -/
def file_lines (files : List FSEntry) (noDirs : Bool) (pfx : String)
    (cfg : NodeConfig) : List String :=
  match files with
  | [] => []
  | f :: rest =>
    process_tree_node f pfx cfg (rest.isEmpty && noDirs) :: file_lines rest noDirs pfx cfg

/-- The `for index, item in enumerate(dirs)` loop of `generate_tree`: emit the
directory's line, recurse through `recur` with the extended prefix and the
stats accumulated so far, and thread the returned stats into the next
sibling. -/
def dirLoopGo (cfg : NodeConfig)
    (recur : List FSEntry → String → TreeStats → List String × TreeStats) :
    List FSEntry → String → TreeStats → List String × TreeStats
  | [], _, stats => ([], stats)
  | d :: rest, pfx, stats =>
    let is_last_item := rest.isEmpty
    let line := process_tree_node d pfx cfg is_last_item
    let r := recur d.childrenOf (pfx ++ contGuide is_last_item) stats
    let r2 := dirLoopGo cfg recur rest pfx r.2
    (line :: (r.1 ++ r2.1), r2.2)

/-- Fuel-indexed body of `generate_tree` (the fuel only makes the nested
recursion structural; `generate_tree` below always supplies enough). -/
def genTreeF : Nat → List FSEntry → String → Option Nat → Nat → TreeStats →
    Option Rx → NodeConfig → List String × TreeStats
  | 0, _, _, _, _, stats, _, _ => ([], stats)
  | fuel + 1, items, pfx, max_depth, current_depth, stats, exclude_pattern, cfg =>
    let pr := process_directory_items items stats exclude_pattern
    let files := pr.1.1
    let dirs := pr.1.2
    let stats1 := pr.2
    let fLines := file_lines files dirs.isEmpty pfx cfg
    if depthReached max_depth current_depth then (fLines, stats1)
    else
      let r := dirLoopGo cfg
        (fun cs p st => genTreeF fuel cs p max_depth (current_depth + 1) st exclude_pattern cfg)
        dirs pfx stats1
      (fLines ++ r.1, r.2)

/-- Model of `tree.py` (src variant), `generate_tree`, taking the directory's listing
`items = list(directory.iterdir())` as input: emit one line per surviving
file, then — unless `current_depth >= max_depth` — one line per surviving
subdirectory immediately followed by its recursively generated lines.
Returns the lines together with the updated stats (the Python function
mutates `stats` in place). -/
def generate_tree (items : List FSEntry) (pfx : String) (max_depth : Option Nat)
    (current_depth : Nat) (stats : TreeStats) (exclude_pattern : Option Rx)
    (cfg : NodeConfig) : List String × TreeStats :=
  genTreeF (szL items + 1) items pfx max_depth current_depth stats exclude_pattern cfg

/-- Python `*string` inside a list display: iterating a `str` yields its
characters as length-1 strings, so the spread appends one line per
character. -/
def splatStr (s : String) : List String :=
  s.data.map (fun c => String.mk [c])

/-- Model of `cli.py` (src variant), `generate_output` (with `process_root_directory`
inlined, as it only forwards to `generate_tree` with default prefix and
depth 0): the root directory's name, the tree lines, and, when stats were
requested, the summary block.  The `*(f"Total size: {stats.total_size}" if
... else [])` of the source spreads the *string* — one output line per
character — which `splatStr` reproduces. -/
def generate_output (rootName : String) (items : List FSEntry)
    (max_depth : Option Nat) (exclude_pattern : Option Rx) (cfg : NodeConfig)
    (show_stats : Bool) : List String :=
  let r := generate_tree items ("") max_depth 0 {} exclude_pattern cfg
  let ls := rootName :: r.1
  if show_stats then
    ls ++ ("\nSummary:" ::
           ("Directories: " ++ toString r.2.directories) ::
           ("Files: " ++ toString r.2.files) ::
           (if cfg.show_size then splatStr ("Total size: " ++ toString r.2.total_size)
            else []))
  else ls

end Pytreeprint

namespace Pytreemap

/-- Model of `max_depth is not None and current_depth > max_depth` — the entry gate of
`pytreemap/tree.py`'s `generate_tree` (note `>` here versus the src variant's
`>=` before the directory loop). -/
def pastMaxDepth : Option Nat → Nat → Bool
  | none, _ => false
  | some m, d => m < d

/-- Model of `sum(f.stat().st_size for f in files)`. -/
def sumSizes (files : List FSEntry) : Nat :=
  files.foldr (fun f a => f.byte_size + a) 0

/-- Fuel-indexed body of `pytreemap/tree.py`'s `generate_tree`.  Its file and
directory loops and its line format are textually identical to the src
variant's, so `Pytreeprint.file_lines` and `Pytreeprint.dirLoopGo` are
reused; the differences modelled here are the entry depth gate, and the stats
update which also accumulates the surviving files' sizes when `show_size` is
set. -/
def genTreeF : Nat → List FSEntry → String → Option Nat → Nat → TreeStats →
    Option Rx → Bool → Bool → List String × TreeStats
  | 0, _, _, _, _, stats, _, _, _ => ([], stats)
  | fuel + 1, items, pfx, max_depth, current_depth, stats, exclude_pattern,
      show_size, use_color =>
    if pastMaxDepth max_depth current_depth then ([], stats)
    else
      let files := Pytreeprint.processedFiles items exclude_pattern
      let dirs := Pytreeprint.processedDirs items exclude_pattern
      let stats1 : TreeStats :=
        { stats with
            directories := stats.directories + dirs.length,
            files := stats.files + files.length,
            total_size := stats.total_size + if show_size then sumSizes files else 0 }
      let cfg : NodeConfig := { show_size := show_size, use_color := use_color }
      let fLines := Pytreeprint.file_lines files dirs.isEmpty pfx cfg
      let r := Pytreeprint.dirLoopGo cfg
        (fun cs p st =>
          genTreeF fuel cs p max_depth (current_depth + 1) st exclude_pattern
            show_size use_color)
        dirs pfx stats1
      (fLines ++ r.1, r.2)

/-- Model of `pytreemap/tree.py`, `generate_tree`, on the directory's listing.  The
source's `is_last` parameter is unused by the body and is omitted here. -/
def generate_tree (items : List FSEntry) (pfx : String) (max_depth : Option Nat)
    (current_depth : Nat) (stats : TreeStats) (exclude_pattern : Option Rx)
    (show_size use_color : Bool) : List String × TreeStats :=
  genTreeF (szL items + 1) items pfx max_depth current_depth stats exclude_pattern
    show_size use_color

end Pytreemap

namespace Pytreeprint

/-- One event produced by iterating an open pattern file: a decoded text
line; an `OSError` raised by the read; or a `UnicodeDecodeError` raised while
decoding the file's bytes as utf-8 (`open(..., encoding='utf-8')`).  Only
`OSError` is caught by the src variant's `except` clause — a decode error is
a `ValueError`, not an `OSError`. -/
inductive FileEvent : Type where
  | line : String → FileEvent
  | ioError : FileEvent
  | decodeError : FileEvent

/-- How the iteration of the pattern file's lines ended: exhausted normally,
stopped by an `OSError`, or stopped by a `UnicodeDecodeError`. -/
inductive ReadStop : Type where
  | done : ReadStop
  | osError : ReadStop
  | decode : ReadStop
deriving DecidableEq

/-- The generator-expression filter of `parse_pattern_file`: keep
`line.strip()` when it is nonempty and the *unstripped* line does not start
with `#`. -/
def patternOf (line : String) : Option String :=
  if line.trim ≠ "" && !(line.startsWith ("#")) then some line.trim else none

/-- Model of `patterns.update(...)` over the line iterator: accumulate stripped
pattern lines into the set until the iterator is exhausted or raises, and
report how the iteration stopped.  CPython's `set.update` keeps the elements
inserted before the iterator raised. -/
def runRead : List FileEvent → Finset String → Finset String × ReadStop
  | [], acc => (acc, .done)
  | .line s :: es, acc =>
    runRead es (match patternOf s with | some p => insert p acc | none => acc)
  | .ioError :: _, acc => (acc, .osError)
  | .decodeError :: _, acc => (acc, .decode)

/-- Model of `tree.py` (src variant), `parse_pattern_file`, over a model of the
file read: `none` means `open` itself raised `OSError`.  The `except OSError`
branch prints a warning and the function returns the `patterns` set
accumulated so far — the empty set when `open` failed, otherwise whatever the
interrupted `update` had already inserted.  A `UnicodeDecodeError` raised
while iterating the utf-8-decoded file is *not* caught (`except` names only
`OSError`) and propagates to the caller, modelled as `Except.error ()`. -/
def parse_pattern_file (opened : Option (List FileEvent)) :
    Except Unit (Finset String) :=
  match opened with
  | none => .ok ∅
  | some events =>
    match runRead events ∅ with
    | (acc, .done) => .ok acc
    | (acc, .osError) => .ok acc
    | (_, .decode) => .error ()

end Pytreeprint

/- ———————————————————————————————————————————————————————————————————————
Spec-side definitions: these follow the wording of the spec/claims (not the
source) and exist to be compared with the source-side definitions above.
——————————————————————————————————————————————————————————————————————— -/

/-- Spec-side: does an entry survive the exclusion matcher? -/
def survives (exclude_pattern : Option Rx) (e : FSEntry) : Bool :=
  match exclude_pattern with
  | some p => !(reMatch p e.name)
  | none => true

/-- Spec-side: "post-filter files" of one listing, in listing order (no
sorting — the claims about counts do not depend on order). -/
def survFiles (items : List FSEntry) (ex : Option Rx) : List FSEntry :=
  (items.filter (fun e => e.is_file)).filter (survives ex)

/-- Spec-side: "post-filter subdirectories" of one listing. -/
def survDirs (items : List FSEntry) (ex : Option Rx) : List FSEntry :=
  (items.filter (fun e => e.is_dir)).filter (survives ex)

/-- Modelled from the claim C4 wording (fuel-indexed): every visited
directory contributes one line per post-filter file and one line per
post-filter subdirectory — "including at the level where the depth limit
takes effect" — and recursion proceeds below a subdirectory only while the
depth limit has not been reached. -/
def specC4CountF : Nat → List FSEntry → Option Nat → Nat → Option Rx → Nat
  | 0, _, _, _, _ => 0
  | fuel + 1, items, max_depth, dep, ex =>
    (survFiles items ex).length + (survDirs items ex).length +
      (if Pytreeprint.depthReached max_depth dep then 0
       else (survDirs items ex).foldr
         (fun d acc => specC4CountF fuel d.childrenOf max_depth (dep + 1) ex + acc) 0)

/-- The claim-C4 line count with adequate fuel. -/
def specC4Count (items : List FSEntry) (max_depth : Option Nat) (dep : Nat)
    (ex : Option Rx) : Nat :=
  specC4CountF (szL items + 1) items max_depth dep ex

/-- The amended C4 count (fuel-indexed): as `specC4CountF`, except that at a
level where the depth limit has been reached no directory lines are emitted
at all. -/
def amendedC4CountF : Nat → List FSEntry → Option Nat → Nat → Option Rx → Nat
  | 0, _, _, _, _ => 0
  | fuel + 1, items, max_depth, dep, ex =>
    if Pytreeprint.depthReached max_depth dep then (survFiles items ex).length
    else
      (survFiles items ex).length + (survDirs items ex).length +
        (survDirs items ex).foldr
          (fun d acc => amendedC4CountF fuel d.childrenOf max_depth (dep + 1) ex + acc) 0

/-- The amended C4 line count with adequate fuel. -/
def amendedC4Count (items : List FSEntry) (max_depth : Option Nat) (dep : Nat)
    (ex : Option Rx) : Nat :=
  amendedC4CountF (szL items + 1) items max_depth dep ex

/-- Pair each list element with whether it is the last one (the
`index == len - 1` test of the source loops). -/
def lastFlags {α : Type} : List α → List (α × Bool)
  | [] => []
  | a :: rest => (a, rest.isEmpty) :: lastFlags rest

/-- The file lines one level of the traversal emits (spec-side shorthand for
stating depth-limit behaviour). -/
def level_file_lines (items : List FSEntry) (ex : Option Rx) (pfx : String)
    (cfg : NodeConfig) : List String :=
  Pytreeprint.file_lines (Pytreeprint.processedFiles items ex)
    (Pytreeprint.processedDirs items ex).isEmpty pfx cfg

/-- Modelled from the spec/claim C8 wording: pick the first unit among
B, KB, MB, GB, TB for which `size / 1024^k` is below 1024 (PB otherwise) and
format that exact value to one decimal place. -/
def specSizeStr (n : Nat) : String :=
  if n < 1024 then pyFormat1 n 1 ++ "B"
  else if n < 1024 ^ 2 then pyFormat1 n 1024 ++ "KB"
  else if n < 1024 ^ 3 then pyFormat1 n (1024 ^ 2) ++ "MB"
  else if n < 1024 ^ 4 then pyFormat1 n (1024 ^ 3) ++ "GB"
  else if n < 1024 ^ 5 then pyFormat1 n (1024 ^ 4) ++ "TB"
  else pyFormat1 n (1024 ^ 5) ++ "PB"

/-- The unanchored user pattern `foo` of claim C10. -/
def rxFoo : Rx := Rx.lit ("foo").data

/- ———————————————————————————————————————————————————————————————————————
Helper lemmas about the stable sort.
——————————————————————————————————————————————————————————————————————— -/

theorem insertSorted_perm {α : Type} (le : α → α → Bool) (a : α) (l : List α) :
    List.Perm (insertSorted le a l) (a :: l) := by
  induction l with
  | nil => simp [insertSorted]
  | cons b bs ih =>
    simp only [insertSorted]
    cases h : le a b with
    | true => simp
    | false =>
      simp only [Bool.false_eq_true, if_false]
      exact (ih.cons b).trans (List.Perm.swap a b bs)

theorem stableSort_perm {α : Type} (le : α → α → Bool) (l : List α) :
    List.Perm (stableSort le l) l := by
  induction l with
  | nil => simp [stableSort]
  | cons a as ih =>
    simp only [stableSort]
    exact (insertSorted_perm le a (stableSort le as)).trans (ih.cons a)

theorem length_stableSort {α : Type} (le : α → α → Bool) (l : List α) :
    (stableSort le l).length = l.length :=
  (stableSort_perm le l).length_eq

theorem mem_stableSort {α : Type} (le : α → α → Bool) (l : List α) (x : α) :
    x ∈ stableSort le l ↔ x ∈ l :=
  (stableSort_perm le l).mem_iff

theorem pairwise_insertSorted {α : Type} (le : α → α → Bool)
    (htr : ∀ x y z, le x y = true → le y z = true → le x z = true)
    (hto : ∀ x y, le x y = true ∨ le y x = true)
    (a : α) (l : List α) (h : l.Pairwise (fun x y => le x y = true)) :
    (insertSorted le a l).Pairwise (fun x y => le x y = true) := by
  induction l with
  | nil => simp [insertSorted]
  | cons b bs ih =>
    rcases List.pairwise_cons.mp h with ⟨hb, hbs⟩
    simp only [insertSorted]
    cases hab : le a b with
    | true =>
      refine List.pairwise_cons.mpr ⟨?_, h⟩
      intro x hx
      rcases List.mem_cons.mp hx with rfl | hx'
      · exact hab
      · exact htr a b x hab (hb x hx')
    | false =>
      simp only [Bool.false_eq_true, if_false]
      refine List.pairwise_cons.mpr ⟨?_, ih hbs⟩
      intro x hx
      rcases List.mem_cons.mp ((insertSorted_perm le a bs).mem_iff.mp hx) with rfl | hx'
      · rcases hto x b with hab' | hba
        · exact absurd hab' (by simp [hab])
        · exact hba
      · exact hb x hx'

theorem pairwise_stableSort {α : Type} (le : α → α → Bool)
    (htr : ∀ x y z, le x y = true → le y z = true → le x z = true)
    (hto : ∀ x y, le x y = true ∨ le y x = true) (l : List α) :
    (stableSort le l).Pairwise (fun x y => le x y = true) := by
  induction l with
  | nil => simp [stableSort]
  | cons a as ih =>
    exact pairwise_insertSorted le htr hto a (stableSort le as) ih

theorem filter_insertSorted_neg {α : Type} (le : α → α → Bool) (keep : α → Bool)
    (a : α) (l : List α) (ha : keep a = false) :
    (insertSorted le a l).filter keep = l.filter keep := by
  induction l with
  | nil => simp [insertSorted, ha]
  | cons b bs ih =>
    simp only [insertSorted]
    cases hab : le a b with
    | true => simp [ha]
    | false =>
      simp only [Bool.false_eq_true, if_false, List.filter_cons]
      cases hb : keep b <;> simp [hb, ih]

theorem filter_insertSorted_pos {α : Type} (le : α → α → Bool) (keep : α → Bool)
    (htr : ∀ x y z, le x y = true → le y z = true → le x z = true)
    (a : α) (l : List α) (hl : l.Pairwise (fun x y => le x y = true))
    (ha : keep a = true) :
    (insertSorted le a l).filter keep = insertSorted le a (l.filter keep) := by
  induction l with
  | nil => simp [insertSorted, ha]
  | cons b bs ih =>
    rcases List.pairwise_cons.mp hl with ⟨hb, hbs⟩
    simp only [insertSorted]
    cases hab : le a b with
    | true =>
      cases hkb : keep b with
      | true => simp [List.filter_cons, ha, hkb, insertSorted, hab]
      | false =>
        simp only [List.filter_cons, ha, hkb, if_true, if_false, Bool.false_eq_true]
        -- a is ≤ everything in bs, hence ≤ the head of the filtered tail
        cases hf : bs.filter keep with
        | nil => simp [insertSorted]
        | cons c cs =>
          have hc : c ∈ bs.filter keep := by rw [hf]; exact List.mem_cons_self c cs
          have hcbs : c ∈ bs := List.mem_of_mem_filter hc
          have hac : le a c = true := htr a b c hab (hb c hcbs)
          simp [insertSorted, hac]
    | false =>
      cases hkb : keep b with
      | true =>
        simp [List.filter_cons, hkb, insertSorted, hab, ih hbs]
      | false =>
        simp [List.filter_cons, hkb, ih hbs]

theorem filter_stableSort {α : Type} (le : α → α → Bool) (keep : α → Bool)
    (htr : ∀ x y z, le x y = true → le y z = true → le x z = true)
    (hto : ∀ x y, le x y = true ∨ le y x = true) (l : List α) :
    (stableSort le l).filter keep = stableSort le (l.filter keep) := by
  induction l with
  | nil => simp [stableSort]
  | cons a as ih =>
    simp only [stableSort, List.filter_cons]
    cases ha : keep a with
    | true =>
      rw [filter_insertSorted_pos le keep htr a (stableSort le as)
        (pairwise_stableSort le htr hto as) ha, ih]
      simp [stableSort]
    | false =>
      rw [filter_insertSorted_neg le keep a (stableSort le as) ha, ih]
      simp

theorem stableSort_eq_self {α : Type} (le : α → α → Bool) (l : List α)
    (h : ∀ x ∈ l, ∀ y ∈ l, le x y = true) : stableSort le l = l := by
  induction l with
  | nil => simp [stableSort]
  | cons a as ih =>
    have hrec : stableSort le as = as := by
      refine ih ?_
      intro x hx y hy
      exact h x (List.mem_cons_of_mem a hx) y (List.mem_cons_of_mem a hy)
    simp only [stableSort, hrec]
    cases as with
    | nil => simp [insertSorted]
    | cons b bs =>
      have hab : le a b = true :=
        h a (List.mem_cons_self a _) b (List.mem_cons_of_mem a (List.mem_cons_self b bs))
      simp [insertSorted, hab]

/- ———————————————————————————————————————————————————————————————————————
The sort key comparison is a total preorder.
——————————————————————————————————————————————————————————————————————— -/

theorem pyCharsLe_total : ∀ as bs, pyCharsLe as bs = true ∨ pyCharsLe bs as = true := by
  intro as
  induction as with
  | nil => intro bs; left; simp [pyCharsLe]
  | cons a as ih =>
    intro bs
    cases bs with
    | nil => right; simp [pyCharsLe]
    | cons b bs =>
      simp only [pyCharsLe]
      rcases Nat.lt_trichotomy a.toNat b.toNat with h | h | h
      · left; simp [h]
      · have h' : ¬ a.toNat < b.toNat := by omega
        have h'' : ¬ b.toNat < a.toNat := by omega
        rcases ih bs with hle | hle
        · left; simp [h', h'', hle]
        · right; simp [h', h'', hle]
      · right; simp [h]

theorem pyCharsLe_trans :
    ∀ as bs cs, pyCharsLe as bs = true → pyCharsLe bs cs = true →
      pyCharsLe as cs = true := by
  intro as
  induction as with
  | nil => intro bs cs _ _; simp [pyCharsLe]
  | cons a as ih =>
    intro bs cs hab hbc
    cases bs with
    | nil => simp [pyCharsLe] at hab
    | cons b bs =>
      cases cs with
      | nil => simp [pyCharsLe] at hbc
      | cons c cs =>
        simp only [pyCharsLe] at hab hbc ⊢
        rcases Nat.lt_trichotomy a.toNat b.toNat with h1 | h1 | h1
        · -- a < b
          rcases Nat.lt_trichotomy b.toNat c.toNat with h2 | h2 | h2
          · have : a.toNat < c.toNat := by omega
            simp [this]
          · have : a.toNat < c.toNat := by omega
            simp [this]
          · -- b > c would make hbc false
            simp [Nat.lt_asymm h2, h2] at hbc
        · -- a = b
          rcases Nat.lt_trichotomy b.toNat c.toNat with h2 | h2 | h2
          · have : a.toNat < c.toNat := by omega
            simp [this]
          · have hac : ¬ a.toNat < c.toNat := by omega
            have hca : ¬ c.toNat < a.toNat := by omega
            simp only [Nat.lt_irrefl, if_false, Nat.lt_asymm, h1] at hab
            simp only [if_neg (by omega : ¬ b.toNat < c.toNat),
              if_neg (by omega : ¬ c.toNat < b.toNat)] at hbc
            simp only [if_neg hac, if_neg hca]
            exact ih bs cs (by simpa using hab) hbc
          · simp [Nat.lt_asymm h2, h2] at hbc
        · simp [Nat.lt_asymm h1, h1] at hab

theorem pyCharsLe_refl : ∀ as, pyCharsLe as as = true := by
  intro as
  induction as with
  | nil => simp [pyCharsLe]
  | cons a as ih => simp [pyCharsLe, ih]

theorem entryLe_trans : ∀ x y z : FSEntry,
    entryLe x y = true → entryLe y z = true → entryLe x z = true := by
  intro x y z hxy hyz
  exact pyCharsLe_trans _ _ _ hxy hyz

theorem entryLe_total : ∀ x y : FSEntry, entryLe x y = true ∨ entryLe y x = true := by
  intro x y
  exact pyCharsLe_total _ _

/- ———————————————————————————————————————————————————————————————————————
Size-measure lemmas used for the fuel of the traversal.
——————————————————————————————————————————————————————————————————————— -/

theorem FSEntry.sz_pos (e : FSEntry) : 1 ≤ e.sz := by
  cases e <;> simp [FSEntry.sz]

theorem szL_perm : ∀ {l₁ l₂ : List FSEntry}, List.Perm l₁ l₂ → szL l₁ = szL l₂ := by
  intro l₁ l₂ h
  induction h with
  | nil => rfl
  | cons x _ ih => simp [szL, ih]
  | swap x y l => simp [szL]; omega
  | trans _ _ ih₁ ih₂ => omega

theorem szL_filter_le (p : FSEntry → Bool) : ∀ l : List FSEntry, szL (l.filter p) ≤ szL l := by
  intro l
  induction l with
  | nil => simp [szL]
  | cons e es ih =>
    simp only [List.filter_cons]
    cases p e with
    | true => simp [szL]; omega
    | false =>
      simp only [Bool.false_eq_true, if_false, szL]
      have := e.sz_pos
      omega

theorem sz_le_szL_of_mem {e : FSEntry} : ∀ {l : List FSEntry}, e ∈ l → e.sz ≤ szL l := by
  intro l
  induction l with
  | nil => intro h; cases h
  | cons x xs ih =>
    intro h
    rcases List.mem_cons.mp h with rfl | h'
    · simp [szL]
    · have := ih h'
      simp [szL]; omega

theorem szL_childrenOf_lt (e : FSEntry) : szL e.childrenOf < e.sz := by
  cases e <;> simp [FSEntry.childrenOf, FSEntry.sz, szL]

theorem mem_processedDirs {d : FSEntry} {items : List FSEntry} {ex : Option Rx}
    (h : d ∈ Pytreeprint.processedDirs items ex) : d ∈ items := by
  have h' : d ∈ stableSort entryLe (items.filter (fun e => e.is_dir)) := by
    unfold Pytreeprint.processedDirs at h
    cases ex with
    | none => exact h
    | some p => exact List.mem_of_mem_filter h
  exact List.mem_of_mem_filter ((mem_stableSort _ _ _).mp h')

theorem szL_children_lt_of_mem_processedDirs {d : FSEntry} {items : List FSEntry}
    {ex : Option Rx} (h : d ∈ Pytreeprint.processedDirs items ex) :
    szL d.childrenOf < szL items :=
  Nat.lt_of_lt_of_le (szL_childrenOf_lt d) (sz_le_szL_of_mem (mem_processedDirs h))

/- ———————————————————————————————————————————————————————————————————————
Unfolding machinery for the traversal (the fuel never matters as long as it
is adequate, which lets us state a clean recursion equation).
——————————————————————————————————————————————————————————————————————— -/

theorem process_directory_items_eq (items : List FSEntry) (stats : TreeStats)
    (ex : Option Rx) :
    Pytreeprint.process_directory_items items stats ex =
      ((Pytreeprint.processedFiles items ex, Pytreeprint.processedDirs items ex),
       { stats with
           directories := stats.directories + (Pytreeprint.processedDirs items ex).length,
           files := stats.files + (Pytreeprint.processedFiles items ex).length }) := rfl

theorem dirLoopGo_congr (cfg : NodeConfig)
    (r₁ r₂ : List FSEntry → String → TreeStats → List String × TreeStats)
    (ds : List FSEntry)
    (hyp : ∀ d ∈ ds, ∀ p st, r₁ d.childrenOf p st = r₂ d.childrenOf p st) :
    ∀ pfx stats, Pytreeprint.dirLoopGo cfg r₁ ds pfx stats =
      Pytreeprint.dirLoopGo cfg r₂ ds pfx stats := by
  induction ds with
  | nil => intro pfx stats; rfl
  | cons d rest ih =>
    intro pfx stats
    have hd := hyp d (List.mem_cons_self d rest)
    have hrest : ∀ d' ∈ rest, ∀ p st, r₁ d'.childrenOf p st = r₂ d'.childrenOf p st :=
      fun d' hm => hyp d' (List.mem_cons_of_mem d hm)
    simp only [Pytreeprint.dirLoopGo, hd, ih hrest]

theorem genTreeF_irrel :
    ∀ f₁ f₂ items pfx maxd dep stats ex cfg, szL items < f₁ → szL items < f₂ →
      Pytreeprint.genTreeF f₁ items pfx maxd dep stats ex cfg =
        Pytreeprint.genTreeF f₂ items pfx maxd dep stats ex cfg := by
  intro f₁
  induction f₁ with
  | zero => intro f₂ items _ _ _ _ _ _ h₁ _; omega
  | succ n ih =>
    intro f₂ items pfx maxd dep stats ex cfg h₁ h₂
    cases f₂ with
    | zero => omega
    | succ m =>
      simp only [Pytreeprint.genTreeF]
      by_cases hgate : Pytreeprint.depthReached maxd dep = true
      · simp [hgate]
      · simp only [hgate, Bool.false_eq_true, if_false]
        have hloop :
            Pytreeprint.dirLoopGo cfg
              (fun cs p st => Pytreeprint.genTreeF n cs p maxd (dep + 1) st ex cfg)
              (Pytreeprint.process_directory_items items stats ex).1.2 pfx
              (Pytreeprint.process_directory_items items stats ex).2 =
            Pytreeprint.dirLoopGo cfg
              (fun cs p st => Pytreeprint.genTreeF m cs p maxd (dep + 1) st ex cfg)
              (Pytreeprint.process_directory_items items stats ex).1.2 pfx
              (Pytreeprint.process_directory_items items stats ex).2 := by
          apply dirLoopGo_congr
          intro d hd p st
          have hdm : d ∈ Pytreeprint.processedDirs items ex := by
            simpa [process_directory_items_eq] using hd
          have hlt : szL d.childrenOf < szL items :=
            szL_children_lt_of_mem_processedDirs hdm
          exact ih m d.childrenOf p maxd (dep + 1) st ex cfg (by omega) (by omega)
        rw [hloop]

theorem genTree_eq (items : List FSEntry) (pfx : String) (maxd : Option Nat)
    (dep : Nat) (stats : TreeStats) (ex : Option Rx) (cfg : NodeConfig) :
    Pytreeprint.generate_tree items pfx maxd dep stats ex cfg =
      (let pr := Pytreeprint.process_directory_items items stats ex
       let fLines := Pytreeprint.file_lines pr.1.1 pr.1.2.isEmpty pfx cfg
       if Pytreeprint.depthReached maxd dep then (fLines, pr.2)
       else
         let r := Pytreeprint.dirLoopGo cfg
           (fun cs p st => Pytreeprint.generate_tree cs p maxd (dep + 1) st ex cfg)
           pr.1.2 pfx pr.2
         (fLines ++ r.1, r.2)) := by
  conv_lhs => rw [Pytreeprint.generate_tree]
  simp only [Pytreeprint.genTreeF]
  by_cases hgate : Pytreeprint.depthReached maxd dep = true
  · simp [hgate]
  · simp only [hgate, Bool.false_eq_true, if_false]
    have hloop :
        Pytreeprint.dirLoopGo cfg
          (fun cs p st => Pytreeprint.genTreeF (szL items) cs p maxd (dep + 1) st ex cfg)
          (Pytreeprint.process_directory_items items stats ex).1.2 pfx
          (Pytreeprint.process_directory_items items stats ex).2 =
        Pytreeprint.dirLoopGo cfg
          (fun cs p st => Pytreeprint.generate_tree cs p maxd (dep + 1) st ex cfg)
          (Pytreeprint.process_directory_items items stats ex).1.2 pfx
          (Pytreeprint.process_directory_items items stats ex).2 := by
      apply dirLoopGo_congr
      intro d hd p st
      have hdm : d ∈ Pytreeprint.processedDirs items ex := by
        simpa [process_directory_items_eq] using hd
      have hlt : szL d.childrenOf < szL items :=
        szL_children_lt_of_mem_processedDirs hdm
      rw [Pytreeprint.generate_tree]
      exact genTreeF_irrel (szL items) (szL d.childrenOf + 1) d.childrenOf p maxd
        (dep + 1) st ex cfg (by omega) (by omega)
    rw [hloop]

/- ———————————————————————————————————————————————————————————————————————
Line-level structure of the traversal output.
——————————————————————————————————————————————————————————————————————— -/

theorem file_lines_length (fs : List FSEntry) (noDirs : Bool) (pfx : String)
    (cfg : NodeConfig) : (Pytreeprint.file_lines fs noDirs pfx cfg).length = fs.length := by
  induction fs with
  | nil => rfl
  | cons f rest ih => simp [Pytreeprint.file_lines, ih]

theorem processedFiles_perm (items : List FSEntry) (ex : Option Rx) :
    List.Perm (Pytreeprint.processedFiles items ex) (survFiles items ex) := by
  unfold Pytreeprint.processedFiles survFiles
  cases ex with
  | none =>
    simpa [survives] using stableSort_perm entryLe (items.filter (fun e => e.is_file))
  | some p =>
    exact (stableSort_perm entryLe (items.filter (fun e => e.is_file))).filter _

theorem processedDirs_perm (items : List FSEntry) (ex : Option Rx) :
    List.Perm (Pytreeprint.processedDirs items ex) (survDirs items ex) := by
  unfold Pytreeprint.processedDirs survDirs
  cases ex with
  | none =>
    simpa [survives] using stableSort_perm entryLe (items.filter (fun e => e.is_dir))
  | some p =>
    exact (stableSort_perm entryLe (items.filter (fun e => e.is_dir))).filter _

theorem processedFiles_length (items : List FSEntry) (ex : Option Rx) :
    (Pytreeprint.processedFiles items ex).length = (survFiles items ex).length :=
  (processedFiles_perm items ex).length_eq

theorem processedDirs_length (items : List FSEntry) (ex : Option Rx) :
    (Pytreeprint.processedDirs items ex).length = (survDirs items ex).length :=
  (processedDirs_perm items ex).length_eq

theorem dirLoopGo_fst_flatMap (cfg : NodeConfig)
    (recur : List FSEntry → String → TreeStats → List String × TreeStats)
    (g : FSEntry → String → List String) :
    ∀ ds : List FSEntry,
      (∀ d ∈ ds, ∀ p st, (recur d.childrenOf p st).1 = g d p) →
      ∀ pfx stats,
        (Pytreeprint.dirLoopGo cfg recur ds pfx stats).1 =
          (lastFlags ds).flatMap (fun di =>
            process_tree_node di.1 pfx cfg di.2 ::
              g di.1 (pfx ++ Pytreeprint.contGuide di.2)) := by
  intro ds
  induction ds with
  | nil => intro _ _ _; rfl
  | cons d rest ih =>
    intro hg pfx stats
    have hd := hg d (List.mem_cons_self d rest)
    have hrest : ∀ d' ∈ rest, ∀ p st, (recur d'.childrenOf p st).1 = g d' p :=
      fun d' hm => hg d' (List.mem_cons_of_mem d hm)
    simp [Pytreeprint.dirLoopGo, lastFlags, hd, ih hrest]

theorem dirLoopGo_fst_length (cfg : NodeConfig)
    (recur : List FSEntry → String → TreeStats → List String × TreeStats)
    (F : FSEntry → Nat) :
    ∀ ds : List FSEntry,
      (∀ d ∈ ds, ∀ p st, (recur d.childrenOf p st).1.length = F d) →
      ∀ pfx stats,
        (Pytreeprint.dirLoopGo cfg recur ds pfx stats).1.length =
          ds.length + (ds.map F).sum := by
  intro ds
  induction ds with
  | nil => intro _ _ _; rfl
  | cons d rest ih =>
    intro hg pfx stats
    have hd := hg d (List.mem_cons_self d rest)
    have hrest : ∀ d' ∈ rest, ∀ p st, (recur d'.childrenOf p st).1.length = F d' :=
      fun d' hm => hg d' (List.mem_cons_of_mem d hm)
    simp [Pytreeprint.dirLoopGo, hd, ih hrest]
    omega

theorem genTreeF_fst_stats :
    ∀ fuel items pfx maxd dep s₁ s₂ ex cfg,
      (Pytreeprint.genTreeF fuel items pfx maxd dep s₁ ex cfg).1 =
        (Pytreeprint.genTreeF fuel items pfx maxd dep s₂ ex cfg).1 := by
  intro fuel
  induction fuel with
  | zero => intro items pfx maxd dep s₁ s₂ ex cfg; rfl
  | succ n ih =>
    intro items pfx maxd dep s₁ s₂ ex cfg
    simp only [Pytreeprint.genTreeF, process_directory_items_eq]
    by_cases hgate : Pytreeprint.depthReached maxd dep = true
    · simp [hgate]
    · simp only [hgate, Bool.false_eq_true, if_false]
      have h₁ := dirLoopGo_fst_flatMap cfg
        (fun cs p st => Pytreeprint.genTreeF n cs p maxd (dep + 1) st ex cfg)
        (fun d p => (Pytreeprint.genTreeF n d.childrenOf p maxd (dep + 1) {} ex cfg).1)
        (Pytreeprint.processedDirs items ex)
        (fun d _ p st => ih d.childrenOf p maxd (dep + 1) st {} ex cfg)
      simp [h₁]

theorem genTree_fst_stats (items : List FSEntry) (pfx : String) (maxd : Option Nat)
    (dep : Nat) (s₁ s₂ : TreeStats) (ex : Option Rx) (cfg : NodeConfig) :
    (Pytreeprint.generate_tree items pfx maxd dep s₁ ex cfg).1 =
      (Pytreeprint.generate_tree items pfx maxd dep s₂ ex cfg).1 :=
  genTreeF_fst_stats (szL items + 1) items pfx maxd dep s₁ s₂ ex cfg

theorem foldr_add_map (F : FSEntry → Nat) :
    ∀ l : List FSEntry, l.foldr (fun d acc => F d + acc) 0 = (l.map F).sum := by
  intro l
  induction l with
  | nil => rfl
  | cons d rest ih => simp [ih]

theorem genTreeF_fst_length :
    ∀ fuel items pfx maxd dep stats ex cfg,
      (Pytreeprint.genTreeF fuel items pfx maxd dep stats ex cfg).1.length =
        amendedC4CountF fuel items maxd dep ex := by
  intro fuel
  induction fuel with
  | zero => intro items pfx maxd dep stats ex cfg; rfl
  | succ n ih =>
    intro items pfx maxd dep stats ex cfg
    simp only [Pytreeprint.genTreeF, process_directory_items_eq, amendedC4CountF]
    by_cases hgate : Pytreeprint.depthReached maxd dep = true
    · simp [hgate, file_lines_length, processedFiles_length]
    · simp only [hgate, Bool.false_eq_true, if_false]
      have hlen := dirLoopGo_fst_length cfg
        (fun cs p st => Pytreeprint.genTreeF n cs p maxd (dep + 1) st ex cfg)
        (fun d => amendedC4CountF n d.childrenOf maxd (dep + 1) ex)
        (Pytreeprint.processedDirs items ex)
        (fun d _ p st => ih d.childrenOf p maxd (dep + 1) st ex cfg)
      have hsum :
          ((Pytreeprint.processedDirs items ex).map
            (fun d => amendedC4CountF n d.childrenOf maxd (dep + 1) ex)).sum =
          ((survDirs items ex).map
            (fun d => amendedC4CountF n d.childrenOf maxd (dep + 1) ex)).sum :=
        ((processedDirs_perm items ex).map _).sum_eq
      simp [hlen, file_lines_length, processedFiles_length, processedDirs_length,
        foldr_add_map, hsum]
      omega

/- ———————————————————————————————————————————————————————————————————————
The combined matcher is the disjunction of the individual patterns.
——————————————————————————————————————————————————————————————————————— -/

theorem matchP_alt : ∀ (s : List Char) (a b : Rx) (st : Bool),
    (Rx.alt a b).matchP st s = (a.matchP st s || b.matchP st s) := by
  intro s
  induction s with
  | nil => intro a b st; rfl
  | cons c rest ih =>
    intro a b st
    simp only [Rx.matchP, Rx.nullable, Rx.deriv, ih]
    cases a.nullable st (eolHere (c :: rest)) <;>
      cases b.nullable st (eolHere (c :: rest)) <;>
      simp [Bool.or_assoc, Bool.or_comm, Bool.or_left_comm]

theorem matchP_grp : ∀ (s : List Char) (r : Rx) (st : Bool),
    (Rx.grp r).matchP st s = r.matchP st s := by
  intro s
  induction s with
  | nil => intro r st; rfl
  | cons c rest ih => intro r st; simp only [Rx.matchP, Rx.nullable, Rx.deriv]

theorem matchP_joinAlt : ∀ (qs : List Rx) (p : Rx) (st : Bool) (s : List Char),
    (joinAlt p qs).matchP st s = (p.matchP st s || qs.any (fun q => q.matchP st s)) := by
  intro qs
  induction qs with
  | nil => intro p st s; simp [joinAlt]
  | cons q rest ih =>
    intro p st s
    simp only [joinAlt, ih, matchP_alt, List.any_cons, Bool.or_assoc]

theorem matcher_test_eq_any (ps : List Rx) (name : String) :
    matcher_test ps name = ps.any (fun p => reMatch p name) := by
  cases ps with
  | nil => rfl
  | cons p rest =>
    simp only [matcher_test, compile_ignore_pattern, reMatch, matchP_joinAlt,
      List.any_map, List.any_cons]
    have hg : ((fun q => Rx.matchP q true name.data) ∘ Rx.grp) =
        fun q => Rx.matchP q true name.data := by
      funext q
      exact matchP_grp _ q true
    rw [hg, matchP_grp]

theorem any_perm_eq {ps qs : List Rx} (h : List.Perm ps qs) (f : Rx → Bool) :
    ps.any f = qs.any f := by
  induction h with
  | nil => rfl
  | cons x _ ih => simp [ih]
  | swap x y l => simp [Bool.or_left_comm, Bool.or_assoc, Bool.or_comm]
  | trans _ _ ih₁ ih₂ => rw [ih₁, ih₂]

theorem matchesAt_zero (p : Rx) (s : String) : matchesAt p s 0 = reMatch p s := rfl

/- ———————————————————————————————————————————————————————————————————————
An excluded directory is invisible to the whole traversal.
——————————————————————————————————————————————————————————————————————— -/

theorem processedFiles_drop_nonfile (d : FSEntry) (hd : d.is_file = false)
    (cs₁ cs₂ : List FSEntry) (ex : Option Rx) :
    Pytreeprint.processedFiles (cs₁ ++ d :: cs₂) ex =
      Pytreeprint.processedFiles (cs₁ ++ cs₂) ex := by
  unfold Pytreeprint.processedFiles
  cases ex <;> simp [List.filter_append, List.filter_cons, hd]

theorem processedDirs_some (items : List FSEntry) (p : Rx) :
    Pytreeprint.processedDirs items (some p) =
      (stableSort entryLe (items.filter (fun d => d.is_dir))).filter
        (fun d => !(reMatch p d.name)) := rfl

theorem processedFiles_some (items : List FSEntry) (p : Rx) :
    Pytreeprint.processedFiles items (some p) =
      (stableSort entryLe (items.filter (fun f => f.is_file))).filter
        (fun f => !(reMatch p f.name)) := rfl

theorem processedDirs_none (items : List FSEntry) :
    Pytreeprint.processedDirs items none =
      stableSort entryLe (items.filter (fun d => d.is_dir)) := rfl

theorem processedFiles_none (items : List FSEntry) :
    Pytreeprint.processedFiles items none =
      stableSort entryLe (items.filter (fun f => f.is_file)) := rfl

theorem processedDirs_drop_excluded (p : Rx) (d : FSEntry) (hd : d.is_dir = true)
    (hm : reMatch p d.name = true) (cs₁ cs₂ : List FSEntry) :
    Pytreeprint.processedDirs (cs₁ ++ d :: cs₂) (some p) =
      Pytreeprint.processedDirs (cs₁ ++ cs₂) (some p) := by
  rw [processedDirs_some, processedDirs_some,
    filter_stableSort entryLe _ entryLe_trans entryLe_total,
    filter_stableSort entryLe _ entryLe_trans entryLe_total]
  congr 1
  simp [List.filter_append, List.filter_cons, hd, hm]

theorem generate_tree_drop_excluded (p : Rx) (d : FSEntry) (hd : d.is_dir = true)
    (hm : reMatch p d.name = true) (cs₁ cs₂ : List FSEntry) (pfx : String)
    (maxd : Option Nat) (dep : Nat) (stats : TreeStats) (cfg : NodeConfig) :
    Pytreeprint.generate_tree (cs₁ ++ d :: cs₂) pfx maxd dep stats (some p) cfg =
      Pytreeprint.generate_tree (cs₁ ++ cs₂) pfx maxd dep stats (some p) cfg := by
  rw [genTree_eq, genTree_eq]
  simp only [process_directory_items_eq,
    processedFiles_drop_nonfile d (by cases d <;> simp_all [FSEntry.is_file, FSEntry.is_dir]) cs₁ cs₂,
    processedDirs_drop_excluded p d hd hm cs₁ cs₂]

/- ———————————————————————————————————————————————————————————————————————
Stability of the per-level sort.
——————————————————————————————————————————————————————————————————————— -/

theorem stableSort_filter_key (l : List FSEntry) (k : List Char) :
    (stableSort entryLe l).filter (fun e => decide (lowerChars e.name = k)) =
      l.filter (fun e => decide (lowerChars e.name = k)) := by
  rw [filter_stableSort entryLe _ entryLe_trans entryLe_total]
  apply stableSort_eq_self
  intro x hx y hy
  have hxk := of_decide_eq_true (List.mem_filter.mp hx).2
  have hyk := of_decide_eq_true (List.mem_filter.mp hy).2
  unfold entryLe
  rw [hxk, hyk]
  exact pyCharsLe_refl k

theorem processedFiles_filter_key (items : List FSEntry) (ex : Option Rx)
    (k : List Char) :
    (Pytreeprint.processedFiles items ex).filter
        (fun e => decide (lowerChars e.name = k)) =
      (survFiles items ex).filter (fun e => decide (lowerChars e.name = k)) := by
  cases ex with
  | none =>
    rw [processedFiles_none]
    simp [survFiles, survives, stableSort_filter_key]
  | some p =>
    rw [processedFiles_some, List.filter_comm, stableSort_filter_key,
      ← List.filter_comm]
    rfl

theorem processedDirs_filter_key (items : List FSEntry) (ex : Option Rx)
    (k : List Char) :
    (Pytreeprint.processedDirs items ex).filter
        (fun e => decide (lowerChars e.name = k)) =
      (survDirs items ex).filter (fun e => decide (lowerChars e.name = k)) := by
  cases ex with
  | none =>
    rw [processedDirs_none]
    simp [survDirs, survives, stableSort_filter_key]
  | some p =>
    rw [processedDirs_some, List.filter_comm, stableSort_filter_key,
      ← List.filter_comm]
    rfl

theorem processedFiles_pairwise (items : List FSEntry) (ex : Option Rx) :
    (Pytreeprint.processedFiles items ex).Pairwise (fun x y => entryLe x y = true) := by
  cases ex with
  | none =>
    rw [processedFiles_none]
    exact pairwise_stableSort entryLe entryLe_trans entryLe_total _
  | some p =>
    rw [processedFiles_some]
    exact (pairwise_stableSort entryLe entryLe_trans entryLe_total _).filter _

theorem processedDirs_pairwise (items : List FSEntry) (ex : Option Rx) :
    (Pytreeprint.processedDirs items ex).Pairwise (fun x y => entryLe x y = true) := by
  cases ex with
  | none =>
    rw [processedDirs_none]
    exact pairwise_stableSort entryLe entryLe_trans entryLe_total _
  | some p =>
    rw [processedDirs_some]
    exact (pairwise_stableSort entryLe entryLe_trans entryLe_total _).filter _

/- ———————————————————————————————————————————————————————————————————————
Size formatting and pattern-file reading.
——————————————————————————————————————————————————————————————————————— -/

theorem get_size_str_eq_spec (n : Nat) : get_size_str n = specSizeStr n := by
  unfold get_size_str specSizeStr
  simp only [sizeLoop]
  norm_num [pow_succ]

theorem runRead_ioError_eq (post : List Pytreeprint.FileEvent) :
    ∀ (pre : List String) (acc : Finset String),
      Pytreeprint.runRead (pre.map .line ++ .ioError :: post) acc =
        ((Pytreeprint.runRead (pre.map .line) acc).1, .osError) := by
  intro pre
  induction pre with
  | nil => intro acc; rfl
  | cons l rest ih => intro acc; simp [Pytreeprint.runRead, ih]

theorem runRead_decodeError_eq (post : List Pytreeprint.FileEvent) :
    ∀ (pre : List String) (acc : Finset String),
      Pytreeprint.runRead (pre.map .line ++ .decodeError :: post) acc =
        ((Pytreeprint.runRead (pre.map .line) acc).1, .decode) := by
  intro pre
  induction pre with
  | nil => intro acc; rfl
  | cons l rest ih => intro acc; simp [Pytreeprint.runRead, ih]

theorem runRead_lines_done :
    ∀ (pre : List String) (acc : Finset String),
      (Pytreeprint.runRead (pre.map .line) acc).2 = .done := by
  intro pre
  induction pre with
  | nil => intro acc; rfl
  | cons l rest ih => intro acc; simp [Pytreeprint.runRead, ih]

/- ———————————————————————————————————————————————————————————————————————
Claim theorems.
——————————————————————————————————————————————————————————————————————— -/

/-- C1 counterexample: with max depth 1 (the CLI invokes the traversal at
depth 0), the root directory `[alpha/[inner.txt]]` produces a line for
`inner.txt` — an entry located inside the first-level subdirectory `alpha`,
which survives the default filtering.  The claim says no such line may
appear, so it is false on the code: the depth check of the installed variant
gates only the directory loop, after the level's files are already
emitted (exactly what the repository's own `test_max_depth` asserts via
`shallow_file.txt`). -/
theorem C1_counterexample :
    (Pytreeprint.generate_tree
        [FSEntry.dir ("alpha") [FSEntry.file ("inner.txt") 0]] ("") (some 1) 0 {}
        defaultCompiled {}).1 = ["└───alpha", "    └───inner.txt"] ∧
      "    └───inner.txt" ∈
        (Pytreeprint.generate_tree
          [FSEntry.dir ("alpha") [FSEntry.file ("inner.txt") 0]] ("") (some 1) 0 {}
          defaultCompiled {}).1 := by
  constructor
  · decide
  · decide

/-- C1 (amended): with max depth 1, starting at depth 0 as the CLI does, the
output is exactly: the root level's file lines, then for each surviving
root-level subdirectory its own line immediately followed by the file lines
of that subdirectory — and nothing else.  So entries directly inside the
root are shown, the *files* directly inside a first-level subdirectory are
also shown, and no subdirectory line or deeper entry below a first-level
subdirectory appears. -/
theorem C1_amended_depth_one (items : List FSEntry) (pfx : String)
    (stats : TreeStats) (ex : Option Rx) (cfg : NodeConfig) :
    (Pytreeprint.generate_tree items pfx (some 1) 0 stats ex cfg).1 =
      level_file_lines items ex pfx cfg ++
        (lastFlags (Pytreeprint.processedDirs items ex)).flatMap (fun di =>
          process_tree_node di.1 pfx cfg di.2 ::
            level_file_lines di.1.childrenOf ex (pfx ++ Pytreeprint.contGuide di.2) cfg) := by
  rw [genTree_eq]
  have hyp : ∀ d ∈ Pytreeprint.processedDirs items ex, ∀ p st,
      (Pytreeprint.generate_tree d.childrenOf p (some 1) 1 st ex cfg).1 =
        level_file_lines d.childrenOf ex p cfg := by
    intro d _ p st
    rw [genTree_eq]
    simp [show Pytreeprint.depthReached (some 1) 1 = true from rfl,
      level_file_lines, process_directory_items_eq]
  have hloop := dirLoopGo_fst_flatMap cfg
    (fun cs p st => Pytreeprint.generate_tree cs p (some 1) 1 st ex cfg)
    (fun d p => level_file_lines d.childrenOf ex p cfg)
    (Pytreeprint.processedDirs items ex) hyp
  simp [show Pytreeprint.depthReached (some 1) 0 = false from rfl,
    process_directory_items_eq, hloop, level_file_lines]

/-- C2 (code bug): running the installed CLI pipeline with `--stats -s` on a
directory holding the single 1536-byte file `data.bin` produces an output
whose last lines are the characters 'T','o','t','a','l',' ','s','i','z','e',
':',' ','0' — one line per character of the string `Total size: 0` — instead
of the single line `Total size: 1.5KB` the claim (and the spec's persisted
state layout) require.  Two slips compound: `*(f"Total size: {...}" if ...
else [])` spreads the string character-wise because the conditional
expression lacks a surrounding list, and the value is the raw accumulated
byte count (never passed through `get_size_str`), which moreover stays 0
in this variant (see C3). -/
theorem C2_total_size_line_splat :
    Pytreeprint.generate_output ("root") [FSEntry.file ("data.bin") 1536] none
      defaultCompiled { show_size := true } true =
    ["root", "└───data.bin [1.5KB]", "\nSummary:", "Directories: 0", "Files: 1",
     "T", "o", "t", "a", "l", " ", "s", "i", "z", "e", ":", " ", "0"] := by
  decide

/-- C3 (code bug): on a root holding `root.txt` (100 bytes) and
`sub/nested.bin` (1536 bytes), with size display enabled, the installed
variant's traversal counts 1 directory and 2 files correctly but leaves
`total_size` at 0: neither `process_directory_items` nor `generate_tree`
ever adds file sizes.  The `pytreemap/tree.py` variant of the same function
— cited by the claim for the size update — does add the surviving files'
sizes at every level and ends with the expected 1636 bytes. -/
theorem C3_total_size_not_accumulated :
    (Pytreeprint.generate_tree
        [FSEntry.file ("root.txt") 100,
         FSEntry.dir ("sub") [FSEntry.file ("nested.bin") 1536]] ("") none 0 {}
        defaultCompiled { show_size := true }).2 =
      { directories := 1, files := 2, total_size := 0 } ∧
    (Pytreemap.generate_tree
        [FSEntry.file ("root.txt") 100,
         FSEntry.dir ("sub") [FSEntry.file ("nested.bin") 1536]] ("") none 0 {}
        defaultCompiled true false).2 =
      { directories := 1, files := 2, total_size := 1636 } := by
  constructor
  · decide
  · decide

/-- C4 counterexample: for the root `[alpha/[beta/]]` with max depth 1 the
traversal emits exactly one line (for `alpha`), while the claim's
count — one line per post-filter file and one per post-filter subdirectory
for every visited directory, *including* the level where the depth limit
takes effect — predicts two: the visited directory `alpha` has the
post-filter subdirectory `beta`, but no directory line is emitted for it,
because the depth gate returns before the directory loop. -/
theorem C4_counterexample :
    ((Pytreeprint.generate_tree
        [FSEntry.dir ("alpha") [FSEntry.dir ("beta") []]] ("") (some 1) 0 {}
        none {}).1).length = 1 ∧
      specC4Count [FSEntry.dir ("alpha") [FSEntry.dir ("beta") []]] (some 1) 0 none = 2 := by
  constructor
  · decide
  · decide

/-- C4 (amended): for every directory visited by the traversal the number of
file lines emitted directly under it equals the number of its post-filter
files; the number of directory lines emitted equals the number of its
post-filter subdirectories at every level *before* the depth limit, while at
a level where the depth limit has been reached no directory lines are
emitted at all.  Stated as: the total number of emitted lines equals the
amended per-directory count, for every tree, prefix, depth limit, starting
depth, stats value, exclusion matcher and configuration. -/
theorem C4_amended_line_counts (items : List FSEntry) (pfx : String)
    (maxd : Option Nat) (dep : Nat) (stats : TreeStats) (ex : Option Rx)
    (cfg : NodeConfig) :
    ((Pytreeprint.generate_tree items pfx maxd dep stats ex cfg).1).length =
      amendedC4Count items maxd dep ex :=
  genTreeF_fst_length (szL items + 1) items pfx maxd dep stats ex cfg

/-- C5: default exclusion is exact-name, not substring.  The compiled default
matcher accepts `node_modules` and rejects `mynode_modules`; a directory
named `mynode_modules` is rendered and counted; and for every surrounding
listing, every subtree, every prefix, depth limit, starting depth, stats
value and configuration, the traversal of a listing containing a
`node_modules` directory is *identical* (lines and statistics alike) to the
traversal of the same listing with that directory and its whole subtree
removed — nothing beneath it is printed and nothing in it contributes to the
directory count, file count or total size. -/
theorem C5_default_exclusion_exact_name :
    matcher_test DEFAULT_IGNORE_PATTERNS ("node_modules") = true ∧
    matcher_test DEFAULT_IGNORE_PATTERNS ("mynode_modules") = false ∧
    (Pytreeprint.generate_tree [FSEntry.dir ("mynode_modules") []] ("") none 0 {}
        defaultCompiled {}) = (["└───mynode_modules"], { directories := 1 }) ∧
    ∀ (cs₁ cs₂ sub : List FSEntry) (pfx : String) (maxd : Option Nat) (dep : Nat)
      (stats : TreeStats) (cfg : NodeConfig),
      Pytreeprint.generate_tree (cs₁ ++ FSEntry.dir ("node_modules") sub :: cs₂)
          pfx maxd dep stats defaultCompiled cfg =
        Pytreeprint.generate_tree (cs₁ ++ cs₂) pfx maxd dep stats defaultCompiled cfg := by
  refine ⟨by decide, by decide, by decide, ?_⟩
  intro cs₁ cs₂ sub pfx maxd dep stats cfg
  obtain ⟨r, hr⟩ : ∃ r, defaultCompiled = some r := ⟨_, rfl⟩
  have hm : reMatch r ("node_modules") = true := by
    have h2 : matcher_test DEFAULT_IGNORE_PATTERNS ("node_modules") = true := by decide
    unfold matcher_test at h2
    rw [show compile_ignore_pattern DEFAULT_IGNORE_PATTERNS = some r from hr] at h2
    simpa using h2
  rw [hr]
  exact generate_tree_drop_excluded r (FSEntry.dir ("node_modules") sub) rfl hm
    cs₁ cs₂ pfx maxd dep stats cfg

/-- C6: ordering of the rendered lines.  (1) For files `B.txt`, `a.txt`,
`C.txt` the emitted order is `a.txt, B.txt, C.txt`.  (2) For every input the
output decomposes as: the file lines of the level first, then (unless the
depth limit gates the level) for each surviving subdirectory in order its
own line immediately followed by its recursively generated lines, before
the next sibling — a depth-first, files-before-directories ordering.
(3) Both per-level buckets are sorted by the case-insensitive comparison.
(4) The sort is stable: for every key, the subsequence of entries whose
lowered name equals that key is exactly the same, in the same order, as in
the unsorted listing. -/
theorem C6_ordering :
    (Pytreeprint.generate_tree
        [FSEntry.file ("B.txt") 0, FSEntry.file ("a.txt") 0, FSEntry.file ("C.txt") 0]
        ("") none 0 {} defaultCompiled {}).1 =
      ["├───a.txt", "├───B.txt", "└───C.txt"] ∧
    (∀ (items : List FSEntry) (pfx : String) (maxd : Option Nat) (dep : Nat)
       (stats : TreeStats) (ex : Option Rx) (cfg : NodeConfig),
      (Pytreeprint.generate_tree items pfx maxd dep stats ex cfg).1 =
        level_file_lines items ex pfx cfg ++
          (if Pytreeprint.depthReached maxd dep then [] else
            (lastFlags (Pytreeprint.processedDirs items ex)).flatMap (fun di =>
              process_tree_node di.1 pfx cfg di.2 ::
                (Pytreeprint.generate_tree di.1.childrenOf
                  (pfx ++ Pytreeprint.contGuide di.2) maxd (dep + 1) {} ex cfg).1))) ∧
    (∀ (items : List FSEntry) (ex : Option Rx),
      (Pytreeprint.processedFiles items ex).Pairwise (fun x y => entryLe x y = true) ∧
      (Pytreeprint.processedDirs items ex).Pairwise (fun x y => entryLe x y = true)) ∧
    (∀ (items : List FSEntry) (ex : Option Rx) (k : List Char),
      (Pytreeprint.processedFiles items ex).filter
          (fun e => decide (lowerChars e.name = k)) =
        (survFiles items ex).filter (fun e => decide (lowerChars e.name = k)) ∧
      (Pytreeprint.processedDirs items ex).filter
          (fun e => decide (lowerChars e.name = k)) =
        (survDirs items ex).filter (fun e => decide (lowerChars e.name = k))) := by
  refine ⟨by decide, ?_, ?_, ?_⟩
  · intro items pfx maxd dep stats ex cfg
    rw [genTree_eq]
    by_cases hgate : Pytreeprint.depthReached maxd dep = true
    · simp [hgate, level_file_lines, process_directory_items_eq]
    · have hyp : ∀ d ∈ Pytreeprint.processedDirs items ex, ∀ p st,
          (Pytreeprint.generate_tree d.childrenOf p maxd (dep + 1) st ex cfg).1 =
            (Pytreeprint.generate_tree d.childrenOf p maxd (dep + 1) {} ex cfg).1 :=
        fun d _ p st => genTree_fst_stats d.childrenOf p maxd (dep + 1) st {} ex cfg
      have hloop := dirLoopGo_fst_flatMap cfg
        (fun cs p st => Pytreeprint.generate_tree cs p maxd (dep + 1) st ex cfg)
        (fun d p => (Pytreeprint.generate_tree d.childrenOf p maxd (dep + 1) {} ex cfg).1)
        (Pytreeprint.processedDirs items ex) hyp
      simp [hgate, process_directory_items_eq, hloop, level_file_lines]
  · intro items ex
    exact ⟨processedFiles_pairwise items ex, processedDirs_pairwise items ex⟩
  · intro items ex k
    exact ⟨processedFiles_filter_key items ex k, processedDirs_filter_key items ex k⟩

/-- C7: `compile_ignore_pattern` returns no matcher exactly for the empty
pattern set; otherwise the combined matcher's test is the logical OR of the
individual patterns' own `match` tests, for every pattern set and name, and
is therefore independent of the order the patterns are combined in.  (The
model covers the regular-expression fragment the program and its documented
contract use; Python-specific capture-group renumbering, which none of the
patterns involve, is outside it.) -/
theorem C7_matcher_alternation :
    (∀ ps : List Rx, compile_ignore_pattern ps = none ↔ ps = []) ∧
    (∀ (ps : List Rx) (name : String),
      matcher_test ps name = ps.any (fun p => reMatch p name)) ∧
    (∀ (ps qs : List Rx) (name : String), List.Perm ps qs →
      matcher_test ps name = matcher_test qs name) := by
  refine ⟨?_, matcher_test_eq_any, ?_⟩
  · intro ps
    cases ps <;> simp [compile_ignore_pattern]
  · intro ps qs name h
    rw [matcher_test_eq_any, matcher_test_eq_any]
    exact any_perm_eq h _

/-- Witness for C7: the order-independence applied at a concrete permutation
of a two-pattern set. -/
theorem C7_matcher_alternation_witness :
    matcher_test [Rx.anchoredLit ("env"), rxFoo] ("foobar") =
      matcher_test [rxFoo, Rx.anchoredLit ("env")] ("foobar") :=
  C7_matcher_alternation.2.2 [Rx.anchoredLit ("env"), rxFoo]
    [rxFoo, Rx.anchoredLit ("env")] ("foobar")
    (List.Perm.swap rxFoo (Rx.anchoredLit ("env")) [])

/-- C8: the size formatter renders 0 bytes as `0.0B`, 1536 bytes as `1.5KB`
and 1048576 bytes as `1.0MB`; and for every byte count it renders the exact
value divided by 1024 once per unit across B, KB, MB, GB, TB — stopping at
the first unit where the remaining value is below 1024, falling back to PB —
to one decimal place. -/
theorem C8_size_formatting :
    get_size_str 0 = "0.0B" ∧ get_size_str 1536 = "1.5KB" ∧
    get_size_str 1048576 = "1.0MB" ∧ ∀ n : Nat, get_size_str n = specSizeStr n :=
  ⟨by decide, by decide, by decide, get_size_str_eq_spec⟩

/-- C9 counterexample: `parse_pattern_file` does raise for some pattern-file
paths.  The src variant opens the file with `encoding='utf-8'` but its
`except` clause names only `OSError`; a `UnicodeDecodeError` (a `ValueError`)
raised while iterating a non-UTF-8 pattern file is not caught and propagates
— modelled as `Except.error ()`.  On the concrete read that yields the line
`keep_me` and then hits a decode error, the function raises instead of
returning the collected set `{keep_me}`, so the claim that it never raises
and always returns the patterns collected before the failure is false. -/
theorem C9_counterexample :
    Pytreeprint.parse_pattern_file
        (some [Pytreeprint.FileEvent.line ("keep_me"),
               Pytreeprint.FileEvent.decodeError]) = .error () := rfl

/-- C9 (amended): `parse_pattern_file` never propagates an *OS-level* read
failure: when `open` itself fails it warns and returns the empty set, and
when the line iteration raises `OSError` midway it returns exactly the
patterns collected from the lines read before the failure — whatever comes
after the failure point never affects the result.  But a
`UnicodeDecodeError` raised while decoding the file propagates to the
caller, since the `except` clause catches only `OSError`. -/
theorem C9_amended_pattern_file_errors :
    Pytreeprint.parse_pattern_file none = .ok ∅ ∧
    (∀ (pre : List String) (post : List Pytreeprint.FileEvent),
      Pytreeprint.parse_pattern_file (some (pre.map .line ++ .ioError :: post)) =
        Pytreeprint.parse_pattern_file (some (pre.map .line))) ∧
    (∀ (pre : List String) (post : List Pytreeprint.FileEvent),
      Pytreeprint.parse_pattern_file (some (pre.map .line ++ .decodeError :: post)) =
        .error ()) := by
  refine ⟨rfl, ?_, ?_⟩
  · intro pre post
    simp only [Pytreeprint.parse_pattern_file, runRead_ioError_eq]
    have hd := runRead_lines_done pre ∅
    rcases hrr : Pytreeprint.runRead (pre.map .line) ∅ with ⟨c, stop⟩
    rw [hrr] at hd
    simp at hd
    subst hd
    simp [hrr]
  · intro pre post
    simp [Pytreeprint.parse_pattern_file, runRead_decodeError_eq]

/-- C10: exclusion testing is start-anchored, not a substring search: for
every pattern set and name the combined matcher reports a match exactly when
some individual pattern matches beginning at the first character (position
0); consequently the unanchored user pattern `foo` excludes an entry named
`foobar`, but never one named `barfoo` — even though `foo` does match inside
`barfoo` at position 3. -/
theorem C10_match_anchored_at_start :
    (∀ (ps : List Rx) (name : String),
      matcher_test ps name = ps.any (fun p => matchesAt p name 0)) ∧
    matcher_test [rxFoo] ("foobar") = true ∧
    matcher_test [rxFoo] ("barfoo") = false ∧
    matchesAt rxFoo ("barfoo") 3 = true := by
  refine ⟨?_, by decide, by decide, by decide⟩
  intro ps name
  rw [matcher_test_eq_any]
  simp only [matchesAt_zero]
